import Mathlib

/-!
Verification development for the rgb-forth language runtime (forth.cpp /
forth.h, with the `.` printing word from forthduino.cpp).

The embedding is shallow: the C tagged-union `Value` becomes an inductive
type, the two operand stacks become lists of values (head = top of stack),
the dictionary becomes an association list, and machine integers / doubles
become `Int` / `ℚ`.  C code paths that dereference a null pointer (the raw
`pop()` on an empty stack, a null `dbl_oper` function pointer, a null
sequence handed to `runSequence`) are modelled by returning `none`.
-/

/-- Truncation of a rational toward zero, the behaviour of a C
`(int)` cast applied to a `double`. -/
def ratTrunc (q : ℚ) : Int := Int.tdiv q.num (Int.ofNat q.den)

/-- Modelled from the spec: the C library `atoi` used by `Value::asint`
for the `Str → Int` coercion ("base-10 parse (non-numeric → 0)"); the
library function itself is not part of this repository.  An optional sign
followed by leading decimal digits is parsed; anything else yields 0. -/
def atoi (s : String) : Int :=
  let digits (cs : List Char) : Int :=
    cs.takeWhile Char.isDigit |>.foldl (fun acc c => acc * 10 + Int.ofNat (c.toNat - '0'.toNat)) 0
  match s.data with
  | '-' :: rest => - digits rest
  | '+' :: rest => digits rest
  | cs => digits cs

/-- Modelled from the spec: the C library `atof` used by `Value::asfloat`
for the `Str → Float` coercion; the library function itself is not part of
this repository.  An optional sign, integer digits, and an optional
fractional part are parsed; anything else yields 0. -/
def atof (s : String) : ℚ :=
  let digits (cs : List Char) : Int :=
    cs.foldl (fun acc c => acc * 10 + Int.ofNat (c.toNat - '0'.toNat)) 0
  let body (cs : List Char) : ℚ :=
    let intPart := cs.takeWhile Char.isDigit
    let rest := cs.drop intPart.length
    let frac := match rest with
      | '.' :: fs => fs.takeWhile Char.isDigit
      | _ => []
    (digits intPart : ℚ) + (digits frac : ℚ) / ((10 : ℚ) ^ frac.length)
  match s.data with
  | '-' :: rest => - body rest
  | '+' :: rest => body rest
  | cs => body cs

/-- The native primitives of the runtime that this development embeds
(each constructor names one `op_...` function registered in
`defineBuiltins`).  A `FUNC` value carries one of these in place of the C
function pointer. -/
inductive Prim where
  | add       -- op_add
  | rot       -- op_rot
  | swap      -- op_swap
  | ifP       -- op_if
  | ifeP      -- op_ife
  | loopP     -- op_loop
  | repeatP   -- op_repeat
  | mapP      -- op_map
deriving DecidableEq, Repr

/-- The tagged-union `Value` of forth.h.  Exactly one payload is live,
selected by the constructor (= the `vtype` tag).  A `SYM` in C references
a dictionary entry (word plus bound value); the embedding inlines the
referenced binding.  A `SEQ` holds its (shared) sequence contents. -/
inductive Value where
  | int (inum : Int)
  | float (fnum : ℚ)
  | str (s : String)
  | func (fn : Prim) (seq : Option (List Value))
  | seq (s : List Value)
  | sym (word : String) (value : Value)
  | array (ia : List Int)
  | free
deriving Repr

/-- Tag test `vtype == ARRAY`. -/
def Value.isArray : Value → Bool
  | .array _ => true
  | _ => false

/-- Tag test `vtype == INT`. -/
def Value.isInt : Value → Bool
  | .int _ => true
  | _ => false

/-- The `len` payload field of an `ARRAY` value (only read by the C code
when the tag is `ARRAY`). -/
def Value.alen : Value → Nat
  | .array ia => ia.length
  | _ => 0

/-- Value::asint of forth.cpp: `INT` gives the payload, `FLOAT`
truncates, `STR` parses base 10, `SYM` chases the bound value, every
other tag gives 0. -/
def Value.asint : Value → Int
  | .int n => n
  | .float q => ratTrunc q
  | .str s => atoi s
  | .sym _ v => v.asint
  | _ => 0

/-- Value::asfloat of forth.cpp. -/
def Value.asfloat : Value → ℚ
  | .int n => (n : ℚ)
  | .float q => q
  | .str s => atof s
  | .sym _ v => v.asfloat
  | _ => 0

/-- Modelled from the spec: the rendering of a `double` by
`sprintf("%f")` / `Serial.print`; the exact host formatting is outside
the repository, so the embedding uses the canonical rational rendering. -/
def floatRepr (q : ℚ) : String := toString q

/-- Value::asstring of forth.cpp (the `%d` / `%f` formatting of sprintf
collapses to `toString` / `floatRepr` in the embedding). -/
def Value.asstring : Value → String
  | .int n => toString n
  | .float q => floatRepr q
  | .str s => s
  | .sym _ v => v.asstring
  | _ => ""

/-- Value::asseq of forth.cpp: `SEQ` gives the referenced sequence, `SYM`
chases the bound value, every other tag gives the null sequence
(modelled as `none`). -/
def Value.asseq : Value → Option (List Value)
  | .seq s => some s
  | .sym _ v => v.asseq
  | _ => none

/-- The `valloc(Value* obj)` copying allocator of forth.cpp: `STR` and
`ARRAY` payloads are cloned (clone of a payload is an equal payload in
the pure model), `FUNC`/`SEQ`/`SYM` share their references, `FREE` copies
nothing. -/
def vallocCopy : Value → Value
  | .int n => .int n
  | .float q => .float q
  | .str s => .str s
  | .func f ps => .func f ps
  | .seq s => .seq s
  | .sym w v => .sym w v
  | .array ia => .array ia
  | .free => .free

/-- An operand stack or a compiled sequence: `ValueStack` of forth.h.
The list head is the top of the stack (and the head of a sequence). -/
abbrev ValueStack := List Value

namespace ValueStack

/-- ValueStack::push — prepend at the head.  Pushing the null pointer
(as `op_stash` can on an empty primary stack) writes through null in C,
so the caller models that case as a crash; here `push` always receives a
real value. -/
def push (v : Value) (s : ValueStack) : ValueStack := v :: s

/-- ValueStack::pop — remove and return the head; on an empty stack the
C code returns the null pointer (`none`) and the stack stays empty. -/
def pop : ValueStack → Option Value × ValueStack
  | [] => (none, [])
  | v :: rest => (some v, rest)

/-- ValueStack::popint — pop, coerce with `asint`, free; the null pop on
an empty stack yields 0. -/
def popint : ValueStack → Int × ValueStack
  | [] => (0, [])
  | v :: rest => (v.asint, rest)

/-- ValueStack::popfloat — pop, coerce with `asfloat`, free; the null pop
on an empty stack yields 0.0. -/
def popfloat : ValueStack → ℚ × ValueStack
  | [] => (0, [])
  | v :: rest => (v.asfloat, rest)

/-- ValueStack::popstring — pop, coerce with `asstring`, free; the null
pop on an empty stack yields the empty string. -/
def popstring : ValueStack → String × ValueStack
  | [] => ("", [])
  | v :: rest => (v.asstring, rest)

/-- ValueStack::popseq — pop, coerce with `asseq`, free; the null pop on
an empty stack yields the null sequence. -/
def popseq : ValueStack → Option (List Value) × ValueStack
  | [] => (none, [])
  | v :: rest => (v.asseq, rest)

end ValueStack

/-!  Broadcast primitives (unary / binary / trinary of forth.cpp).  The
int form and the optional float form are taken as parameters, exactly as
the C functions take an `oper` and a possibly-null `dbl_oper` function
pointer.  A `none` result models a null-pointer dereference: the raw
`pop()` of an operand that is then unconditionally dereferenced, or the
call of a null `dbl_oper`. -/

/-- The `unary(oper, dbl_oper)` iterator of forth.cpp: pop one operand;
an `ARRAY` maps the int form over its elements, an `INT` applies the int
form, and any other tag applies `dbl_oper` to `asfloat` — with no null
check on `dbl_oper`, so a missing float form is a null call (`none`). -/
def unary (oper : Int → Int) (dbl_oper : Option (ℚ → ℚ)) : ValueStack → Option ValueStack
  | [] => none
  | a :: rest =>
    match a with
    | .array ia => some (.array (ia.map oper) :: rest)
    | .int _ => some (.int (oper a.asint) :: rest)
    | _ =>
      match dbl_oper with
      | some f => some (.float (f a.asfloat) :: rest)
      | none => none

/-- The float-vs-int test of `binary`: use the float form when
`dbl_oper` is non-null and not both operands are `INT` or `ARRAY`. -/
def usefloat2 (dbl_oper : Option (ℚ → ℚ → ℚ)) (a b : Value) : Bool :=
  dbl_oper.isSome && !((a.isArray || a.isInt) && (b.isArray || b.isInt))

/-- The per-index int read of the `binary`/`trinary` broadcast loop:
an `ARRAY` yields element `i` (0 beyond its length), anything else
yields its `asint` value. -/
def elemInt (v : Value) (i : Nat) : Int :=
  match v with
  | .array ia => if i < ia.length then ia.getD i 0 else 0
  | _ => v.asint

/-- The per-index float read of the `binary`/`trinary` broadcast loop. -/
def elemFloat (v : Value) (i : Nat) : ℚ :=
  match v with
  | .array ia => if i < ia.length then ((ia.getD i 0 : Int) : ℚ) else 0
  | _ => v.asfloat

/-- The `binary(oper, dbl_oper)` iterator of forth.cpp: pop `b` then
`a`; if either is an `ARRAY`, build a result array of the longer length
(scalars count as length 1), reading each index with `elemInt` /
`elemFloat` and truncating float results to int; otherwise apply the
chosen form once.  Fewer than two values on the stack leave a null
operand that the `usefloat` test dereferences (`none`). -/
def binary (oper : Int → Int → Int) (dbl_oper : Option (ℚ → ℚ → ℚ)) : ValueStack → Option ValueStack
  | b :: a :: rest =>
    let uf := usefloat2 dbl_oper a b
    if a.isArray || b.isArray then
      let la := if a.isArray then a.alen else 1
      let lb := if b.isArray then b.alen else 1
      let len := if la > lb then la else lb
      let rs := (List.range len).map (fun i =>
        match dbl_oper, uf with
        | some f, true => ratTrunc (f (elemFloat a i) (elemFloat b i))
        | _, _ => oper (elemInt a i) (elemInt b i))
      some (.array rs :: rest)
    else
      match dbl_oper, uf with
      | some f, true => some (.float (f a.asfloat b.asfloat) :: rest)
      | _, _ => some (.int (oper a.asint b.asint) :: rest)
  | _ => none

/-- The float-vs-int test of `trinary`. -/
def usefloat3 (dbl_oper : Option (ℚ → ℚ → ℚ → ℚ)) (a b c : Value) : Bool :=
  dbl_oper.isSome &&
    !((a.isArray || a.isInt) && (b.isArray || b.isInt) && (c.isArray || c.isInt))

/-- The `trinary(oper, dbl_oper)` iterator of forth.cpp: pop `c`, `b`,
`a`; broadcast over arrays to the longest operand exactly as `binary`
does. -/
def trinary (oper : Int → Int → Int → Int) (dbl_oper : Option (ℚ → ℚ → ℚ → ℚ)) :
    ValueStack → Option ValueStack
  | c :: b :: a :: rest =>
    let uf := usefloat3 dbl_oper a b c
    if a.isArray || b.isArray || c.isArray then
      let la := if a.isArray then a.alen else 1
      let lb := if b.isArray then b.alen else 1
      let lc := if c.isArray then c.alen else 1
      let len0 := if la > lb then la else lb
      let len := if lc > len0 then lc else len0
      let rs := (List.range len).map (fun i =>
        match dbl_oper, uf with
        | some f, true => ratTrunc (f (elemFloat a i) (elemFloat b i) (elemFloat c i))
        | _, _ => oper (elemInt a i) (elemInt b i) (elemInt c i))
      some (.array rs :: rest)
    else
      match dbl_oper, uf with
      | some f, true => some (.float (f a.asfloat b.asfloat c.asfloat) :: rest)
      | _, _ => some (.int (oper a.asint b.asint c.asint) :: rest)
  | _ => none

/-!  The scalar operator functions behind the broadcast words that the
claims exercise. -/

/-- oper_add of forth.cpp. -/
def oper_add (a b : Int) : Int := a + b

/-- oper_dbl_add of forth.cpp. -/
def oper_dbl_add (a b : ℚ) : ℚ := a + b

/-- oper_not of forth.cpp (the int form of `not`; `op_not` registers no
float form: `unary(&oper_not, NULL)`). -/
def oper_not (a : Int) : Int := if a ≠ 0 then 0 else 1

/-- oper_div of forth.cpp: integer division, 0 on a zero divisor (C `/`
on int truncates toward zero, `Int.tdiv`). -/
def oper_div (a b : Int) : Int := if b = 0 then 0 else Int.tdiv a b

/-- oper_dbl_div of forth.cpp: double division, 0.0 on a zero divisor. -/
def oper_dbl_div (a b : ℚ) : ℚ := if b = 0 then 0 else a / b

/-- oper_mod of forth.cpp: integer remainder, 0 on a zero divisor (C `%`
pairs with truncating division, `Int.tmod`). -/
def oper_mod (a b : Int) : Int := if b = 0 then 0 else Int.tmod a b

/-- oper_dbl_mod of forth.cpp: `a - trunc(a / b) * b`, 0.0 on a zero
divisor. -/
def oper_dbl_mod (a b : ℚ) : ℚ :=
  if b = 0 then 0 else a - (ratTrunc (a / b) : ℚ) * b

/-!  Dictionary (Sym / FDict of forth.cpp). -/

/-- The `ValueStack(ValueStack* src)` copy constructor of forth.cpp used
by `FDict::def`: every item is copied with `valloc(Value*)`, and a `SEQ`
item additionally gets a recursive deep copy of its sequence. -/
def seqCopy : List Value → List Value
  | [] => []
  | .seq s :: rest => .seq (seqCopy s) :: seqCopy rest
  | itm :: rest => vallocCopy itm :: seqCopy rest

/-- The dictionary: an intrusive singly-linked list of `Sym` entries,
head first.  Each entry is a (cloned) word together with its bound
value. -/
abbrev FDict := List (String × Value)

namespace FDict

/-- FDict::def — a `SEQ` value first gets an owned deep copy of its
sequence, then a new `Sym` is prepended at the head (the source name
`def` is a Lean keyword, hence `define`). -/
def define (d : FDict) (word : String) (value : Value) : FDict :=
  let stored := match value with
    | .seq s => Value.seq (seqCopy s)
    | v => v
  (word, stored) :: d

/-- FDict::findsym — scan head first, return the first entry whose word
matches. -/
def findsym (d : FDict) (word : String) : Option (String × Value) :=
  d.find? (fun p => p.1 == word)

/-- FDict::find — the value of the first matching entry, else null. -/
def find (d : FDict) (word : String) : Option Value :=
  (d.findsym word).map (fun p => p.2)

/-- FDict::forget — unlink the first entry whose word matches. -/
def forget : FDict → String → FDict
  | [], _ => []
  | p :: rest, word => if p.1 == word then rest else p :: forget rest word

end FDict

/-!  Pure stack-manipulation primitives. -/

/-- op_rot of forth.cpp: pop the top three values `v1 v2 v3` and push
them back as `v1`, `v3`, `v2` — top-first `c b a` becomes `b a c`.  With
fewer than three values one of the pops returns the null pointer, and
`push` writes through it (`none`). -/
def op_rot : ValueStack → Option ValueStack
  | v1 :: v2 :: v3 :: rest => some (v2 :: v3 :: v1 :: rest)
  | _ => none

/-- op_swap of forth.cpp: relink the top two nodes in place.  On an
empty stack `temp->next` reads through null; with a single value
`vstk->head->next` reads through the null new head (`none`). -/
def op_swap : ValueStack → Option ValueStack
  | a :: b :: rest => some (b :: a :: rest)
  | _ => none

/-- prtvalue of forthduino.cpp: render one value for `Serial.print`. -/
def prtvalue : Value → String
  | .free => "<free>"
  | .int n => toString n
  | .float q => floatRepr q
  | .str s => s
  | .func _ _ => "<func>"
  | .seq _ => "<seq>"
  | .array ia => "<int[" ++ toString ia.length ++ "]>"
  | .sym w _ => "<" ++ w ++ ">"

/-- The `.` word (`dot` of forthduino.cpp): pop the top value, print it
followed by a space, free it.  On an empty stack `prtvalue` dereferences
the null pop (`none`).  The result pairs the printed text with the
residual stack. -/
def dot : ValueStack → Option (String × ValueStack)
  | [] => none
  | v :: rest => some (prtvalue v ++ " ", rest)

/-- The process-wide machine state the embedded primitives touch: the
primary stack `vstk` and the auxiliary stash `vstash`. -/
structure Machine where
  vstk : ValueStack
  vstash : ValueStack
deriving Repr

/-- op_stash (`>>>`) of forth.cpp: pop the primary stack, push onto the
stash.  On an empty primary stack the private `push` writes through the
null popped pointer (`none`). -/
def op_stash (m : Machine) : Option Machine :=
  match m.vstk with
  | [] => none
  | v :: rest => some ⟨rest, v :: m.vstash⟩

/-- op_unstash (`<<<`) of forth.cpp: pop the stash, push onto the
primary stack.  On an empty stash the `push` writes through null
(`none`). -/
def op_unstash (m : Machine) : Option Machine :=
  match m.vstash with
  | [] => none
  | v :: rest => some ⟨v :: m.vstk, rest⟩

/-- Push a value onto the primary stack of a machine. -/
def mpush (m : Machine) (v : Value) : Machine :=
  { m with vstk := ValueStack.push v m.vstk }

/-!  The executor (runValue / runSequence of forth.cpp) together with the
bodies of the control-flow primitives that recursively run sequences.
The C recursion is unbounded (a runaway sequence cannot be interrupted),
so the embedding adds a fuel argument; `execPrim` spends one unit of fuel
before running a popped sequence.  `none` models either fuel exhaustion
or a null-pointer dereference (`runSequence(NULL)`, a null raw pop). -/

mutual

/-- runSequence of forth.cpp: iterate a sequence head to tail, running
each element. -/
def runSeq : Nat → List Value → Machine → Option Machine
  | _, [], m => some m
  | f, it :: rest, m =>
    match runValue f it m with
    | none => none
    | some m2 => runSeq f rest m2
termination_by f s m => (f, 1, s.length)

/-- runValue of forth.cpp: a `FUNC` element is invoked (with its
attached implicit-parameter sequence as the current-func context), a
`SYM` bound to a `FUNC` likewise, and every other element pushes a
deep copy of itself onto the primary stack. -/
def runValue : Nat → Value → Machine → Option Machine
  | f, .func p ps, m => execPrim f p ps m
  | f, .sym _ (.func p ps), m => execPrim f p ps m
  | _, it, m => some (mpush m (vallocCopy it))
termination_by f v m => (f, 0, 1)

/-- Dispatch of the embedded built-in words (`op_add`, `op_rot`,
`op_swap`, `op_if`, `op_ife`, `op_loop`, `op_repeat`, `op_map` of
forth.cpp).  The control-flow words spend one unit of fuel; running a
null popped sequence is the C `runSequence(NULL)` crash (`none`), which
the zero-iteration paths never reach. -/
def execPrim : Nat → Prim → Option (List Value) → Machine → Option Machine
  | _, .add, _, m => (binary oper_add (some oper_dbl_add) m.vstk).map (fun s => { m with vstk := s })
  | _, .rot, _, m => (op_rot m.vstk).map (fun s => { m with vstk := s })
  | _, .swap, _, m => (op_swap m.vstk).map (fun s => { m with vstk := s })
  | Nat.succ f, .ifP, _, m =>
    let (test, s1) := ValueStack.popint m.vstk
    let (blk, s2) := ValueStack.popseq s1
    if test ≠ 0 then
      match blk with
      | some b => runSeq f b { m with vstk := s2 }
      | none => none
    else some { m with vstk := s2 }
  | Nat.succ f, .ifeP, _, m =>
    let (test, s1) := ValueStack.popint m.vstk
    let (eblk, s2) := ValueStack.popseq s1
    let (iblk, s3) := ValueStack.popseq s2
    if test ≠ 0 then
      match iblk with
      | some b => runSeq f b { m with vstk := s3 }
      | none => none
    else
      match eblk with
      | some b => runSeq f b { m with vstk := s3 }
      | none => none
  | Nat.succ f, .loopP, _, m =>
    let (e, s1) := ValueStack.popint m.vstk
    let (b, s2) := ValueStack.popint s1
    let (blk, s3) := ValueStack.popseq s2
    match blk with
    | some block =>
      if b < e then loopAsc f block b e { m with vstk := s3 }
      else loopDesc f block b e { m with vstk := s3 }
    | none => if b = e then some { m with vstk := s3 } else none
  | Nat.succ f, .repeatP, _, m =>
    let (times, s1) := ValueStack.popint m.vstk
    let (blk, s2) := ValueStack.popseq s1
    match blk with
    | some block => repeatIter f block 0 times { m with vstk := s2 }
    | none => if times ≤ 0 then some { m with vstk := s2 } else none
  | Nat.succ f, .mapP, _, m =>
    let (blk, s1) := ValueStack.popseq m.vstk
    match ValueStack.pop s1 with
    | (none, _) => none
    | (some va, s2) =>
      match va with
      | .array ia =>
        match blk, ia with
        | _, [] => some { m with vstk := Value.array [] :: s2 }
        | some block, _ => mapIter f block [] ia { m with vstk := s2 }
        | none, _ :: _ => none
      | _ => some { m with vstk := s2 }
  | 0, .ifP, _, _ => none
  | 0, .ifeP, _, _ => none
  | 0, .loopP, _, _ => none
  | 0, .repeatP, _, _ => none
  | 0, .mapP, _, _ => none
termination_by f p ps m => (f, 0, 0)

/-- The ascending `for (int i = begin; i < end; i++)` loop of op_loop:
push `i`, run the block, continue with `i + 1`. -/
def loopAsc (f : Nat) (block : List Value) (i e : Int) (m : Machine) : Option Machine :=
  if h : i < e then
    match runSeq f block (mpush m (.int i)) with
    | none => none
    | some m2 => loopAsc f block (i + 1) e m2
  else some m
termination_by (f, 2, (e - i).toNat)

/-- The descending `for (int i = begin; i > end; i--)` loop of op_loop. -/
def loopDesc (f : Nat) (block : List Value) (i e : Int) (m : Machine) : Option Machine :=
  if h : e < i then
    match runSeq f block (mpush m (.int i)) with
    | none => none
    | some m2 => loopDesc f block (i - 1) e m2
  else some m
termination_by (f, 2, (i - e).toNat)

/-- The `for (int i = 0; i < times; i++)` loop of op_repeat. -/
def repeatIter (f : Nat) (block : List Value) (i times : Int) (m : Machine) : Option Machine :=
  if h : i < times then
    match runSeq f block m with
    | none => none
    | some m2 => repeatIter f block (i + 1) times m2
  else some m
termination_by (f, 2, (times - i).toNat)

/-- The element loop of op_map: push the original element, run the
block, pop an int back into the array slot; `done` is the already
rewritten prefix and `todo` the untouched suffix.  After the loop the
(mutated) array is pushed back. -/
def mapIter (f : Nat) (block : List Value) (done todo : List Int) (m : Machine) : Option Machine :=
  match todo with
  | [] => some { m with vstk := Value.array done :: m.vstk }
  | x :: rest =>
    match runSeq f block (mpush m (.int x)) with
    | none => none
    | some m2 =>
      let (r, s3) := ValueStack.popint m2.vstk
      mapIter f block (done ++ [r]) rest { m2 with vstk := s3 }
termination_by (f, 2, todo.length)

end

/-!  Compiled forms of the concrete programs named by the spec's
scenarios.  `parseSequenceWord` compiles a number token to a tail-pushed
`INT` element, a bracketed block to a tail-pushed `SEQ` element, and a
word bound to a built-in to a `SYM` element referencing the dictionary
entry, which `runValue` invokes. -/

/-- The compiled element for the word `+` (a `SYM` bound to op_add). -/
def addSym : Value := .sym "+" (.func .add none)

/-- The compiled element for the word `rot` (a `SYM` bound to op_rot). -/
def rotSym : Value := .sym "rot" (.func .rot none)

/-- The compiled element for the word `loop` (a `SYM` bound to
op_loop). -/
def loopSym : Value := .sym "loop" (.func .loopP none)

/-- The compiled sequence of the program `1 2 3 rot`. -/
def progRot : List Value := [.int 1, .int 2, .int 3, rotSym]

/-- The compiled sequence of the program `[ 1 + ] 0 10 loop`. -/
def progLoop : List Value := [.seq [.int 1, addSym], .int 0, .int 10, loopSym]

/-- The machine at the start of a program: both stacks empty. -/
def mEmpty : Machine := ⟨[], []⟩

/-- Specification-side description of one `loop` pass: push each index
in turn and run the block once per index, left to right. -/
def runOver (f : Nat) (block : List Value) (m : Machine) : List Int → Option Machine
  | [] => some m
  | i :: rest =>
    match runSeq f block (mpush m (.int i)) with
    | none => none
    | some m2 => runOver f block m2 rest

/-- Specification-side index list of `loop ( seq begin end — )`: from
`begin` toward `end`, excluding `end`, ascending when `begin < end` and
descending otherwise (empty when `begin = end`). -/
def loopIndices (b e : Int) : List Int :=
  if b < e then (List.range (e - b).toNat).map (fun k : Nat => b + (k : Int))
  else (List.range (b - e).toNat).map (fun k : Nat => b - (k : Int))

/-!  Helper lemmas shared by the claim theorems. -/

/-- Copying a value with `valloc(Value*)` yields an equal value in the
pure model (payload clones are equal payloads, references are shared). -/
theorem vallocCopy_self (v : Value) : vallocCopy v = v := by
  cases v <;> rfl

/-- The deep copy taken by `FDict::def` reproduces the sequence. -/
theorem seqCopy_self : (l : List Value) → seqCopy l = l
  | [] => by simp [seqCopy]
  | .seq s :: rest => by rw [seqCopy, seqCopy_self s, seqCopy_self rest]
  | .int _ :: rest => by simp [seqCopy, vallocCopy_self, seqCopy_self rest]
  | .float _ :: rest => by simp [seqCopy, vallocCopy_self, seqCopy_self rest]
  | .str _ :: rest => by simp [seqCopy, vallocCopy_self, seqCopy_self rest]
  | .func _ _ :: rest => by simp [seqCopy, vallocCopy_self, seqCopy_self rest]
  | .sym _ _ :: rest => by simp [seqCopy, vallocCopy_self, seqCopy_self rest]
  | .array _ :: rest => by simp [seqCopy, vallocCopy_self, seqCopy_self rest]
  | .free :: rest => by simp [seqCopy, vallocCopy_self, seqCopy_self rest]

/-- The ascending for-loop of op_loop is one `runOver` pass on the
indices `begin, begin+1, …` up to but excluding `end`. -/
theorem loopAsc_eq_runOver (f : Nat) (block : List Value) :
    ∀ (n : Nat) (b e : Int) (m : Machine), (e - b).toNat = n →
      loopAsc f block b e m =
        runOver f block m ((List.range n).map (fun k : Nat => b + (k : Int))) := by
  intro n
  induction n with
  | zero =>
    intro b e m hn
    have hbe : ¬ b < e := by omega
    rw [loopAsc]
    simp [hbe, runOver]
  | succ n ih =>
    intro b e m hn
    have hbe : b < e := by omega
    rw [loopAsc]
    rw [List.range_succ_eq_map]
    simp only [hbe, dite_true, List.map_cons, List.map_map, Nat.cast_zero, add_zero]
    rw [runOver.eq_def]
    cases hr : runSeq f block (mpush m (.int b)) with
    | none => simp [hr]
    | some m2 =>
      simp only [hr]
      have hfun : ((fun k : Nat => b + (k : Int)) ∘ Nat.succ) = fun k : Nat => (b + 1) + (k : Int) := by
        funext k
        simp [Function.comp]
        push_cast
        ring
      rw [hfun]
      exact ih (b + 1) e m2 (by omega)

/-- The descending for-loop of op_loop is one `runOver` pass on the
indices `begin, begin-1, …` down to but excluding `end`. -/
theorem loopDesc_eq_runOver (f : Nat) (block : List Value) :
    ∀ (n : Nat) (b e : Int) (m : Machine), (b - e).toNat = n →
      loopDesc f block b e m =
        runOver f block m ((List.range n).map (fun k : Nat => b - (k : Int))) := by
  intro n
  induction n with
  | zero =>
    intro b e m hn
    have hbe : ¬ e < b := by omega
    rw [loopDesc]
    simp [hbe, runOver]
  | succ n ih =>
    intro b e m hn
    have hbe : e < b := by omega
    rw [loopDesc]
    rw [List.range_succ_eq_map]
    simp only [hbe, dite_true, List.map_cons, List.map_map, Nat.cast_zero, sub_zero]
    rw [runOver.eq_def]
    cases hr : runSeq f block (mpush m (.int b)) with
    | none => simp [hr]
    | some m2 =>
      simp only [hr]
      have hfun : ((fun k : Nat => b - (k : Int)) ∘ Nat.succ) = fun k : Nat => (b - 1) - (k : Int) := by
        funext k
        simp [Function.comp]
        push_cast
        ring
      rw [hfun]
      exact ih (b - 1) e m2 (by omega)

/-!  Claim theorems. -/

/-- C1: the claimed float-use predicate fails for the unary family.
`op_not` registers `unary(&oper_not, NULL)`; on a `FLOAT` operand the
claim says the int form is applied (no float form exists), but `unary`
never tests `dbl_oper` for null and calls the null float-form pointer —
modelled as the crash result `none`. -/
theorem unary_no_float_form_crash :
    unary oper_not none [Value.float ((3 : ℚ) / 2)] = none := rfl

/-- C2: for a binary broadcast primitive with at least one `ARRAY`
operand, the result is an `ARRAY` pushed over the residual stack, its
length is the maximum of the operand lengths (scalars counting as 1),
and element `i` applies the chosen form to the per-index reads (array
shorter than `i` contributes 0, scalar contributes its coerced value),
truncating to int when the float form is chosen. -/
theorem binary_broadcast (oper : Int → Int → Int) (dbl_oper : Option (ℚ → ℚ → ℚ))
    (a b : Value) (rest : ValueStack)
    (h : (a.isArray || b.isArray) = true) :
    ∃ rs : List Int,
      binary oper dbl_oper (b :: a :: rest) = some (.array rs :: rest) ∧
      rs.length = max (if a.isArray then a.alen else 1) (if b.isArray then b.alen else 1) ∧
      ∀ i : Nat, i < rs.length →
        rs.getD i 0 =
          if usefloat2 dbl_oper a b then
            ratTrunc ((dbl_oper.getD (fun _ _ => 0)) (elemFloat a i) (elemFloat b i))
          else oper (elemInt a i) (elemInt b i) := by
  have hlen : (if (if a.isArray then a.alen else 1) > (if b.isArray then b.alen else 1)
      then (if a.isArray then a.alen else 1) else (if b.isArray then b.alen else 1)) =
      max (if a.isArray then a.alen else 1) (if b.isArray then b.alen else 1) := by
    split_ifs <;> omega
  have hbin : binary oper dbl_oper (b :: a :: rest) =
      some (.array ((List.range (max (if a.isArray then a.alen else 1)
          (if b.isArray then b.alen else 1))).map
        (fun i => if usefloat2 dbl_oper a b then
            ratTrunc ((dbl_oper.getD (fun _ _ => 0)) (elemFloat a i) (elemFloat b i))
          else oper (elemInt a i) (elemInt b i))) :: rest) := by
    cases dbl_oper with
    | none =>
      simp only [binary, h, if_true, hlen, usefloat2, Option.isSome_none, Bool.false_and,
        Bool.false_eq_true, if_false]
    | some fq =>
      cases huf : usefloat2 (some fq) a b with
      | true => simp only [binary, h, if_true, hlen, huf, Option.getD_some]
      | false => simp only [binary, h, if_true, hlen, huf, Bool.false_eq_true, if_false]
  refine ⟨_, hbin, by simp, ?_⟩
  intro i hi
  simp only [List.length_map, List.length_range] at hi
  rw [List.getD_eq_getElem _ _ (by simpa using hi)]
  simp

/-- C2 witness: `[1 2 3] 10 +` broadcasts the scalar over the array. -/
theorem binary_broadcast_witness :
    ((Value.array [1, 2, 3]).isArray || (Value.int 10).isArray) = true ∧
    (∃ rs : List Int,
      binary oper_add (some oper_dbl_add)
          (Value.int 10 :: Value.array [1, 2, 3] :: ([] : ValueStack)) =
        some (.array rs :: ([] : ValueStack)) ∧
      rs.length = max
        (if (Value.array [1, 2, 3] : Value).isArray then (Value.array [1, 2, 3] : Value).alen else 1)
        (if (Value.int 10 : Value).isArray then (Value.int 10 : Value).alen else 1) ∧
      ∀ i : Nat, i < rs.length →
        rs.getD i 0 =
          if usefloat2 (some oper_dbl_add) (Value.array [1, 2, 3]) (Value.int 10) then
            ratTrunc ((some oper_dbl_add).getD (fun _ _ => 0)
              (elemFloat (Value.array [1, 2, 3]) i) (elemFloat (Value.int 10) i))
          else oper_add (elemInt (Value.array [1, 2, 3]) i) (elemInt (Value.int 10) i)) :=
  ⟨rfl, binary_broadcast oper_add (some oper_dbl_add) (Value.array [1, 2, 3]) (Value.int 10) [] rfl⟩

/-- C3 counterexample: executing the compiled program `1 2 3 rot` on the
empty machine does not leave the stack `2 3 1` (top first) — the actual
residual stack is `2 1 3`. -/
theorem rot_scenario_counterexample :
    ¬ (runSeq 2 progRot mEmpty = some ⟨[Value.int 2, Value.int 3, Value.int 1], []⟩) := by
  have h1 : runSeq 2 progRot mEmpty = some ⟨[Value.int 2, Value.int 1, Value.int 3], []⟩ := by
    simp [runSeq, runValue, execPrim, progRot, rotSym, mEmpty, mpush, vallocCopy, op_rot,
      ValueStack.push]
  rw [h1]
  intro hcl
  have h2 := congrArg Machine.vstk (Option.some.inj hcl)
  simp at h2

/-- C3 amended: `rot` reorders the top three values `c b a` (top first)
into `b a c`, so `1 2 3 rot` leaves the stack `2 1 3` (top first); `.`
then prints `2` and the residual stack is `1 3` (top first). -/
theorem rot_scenario_amended :
    (∀ (c b a : Value) (rest : ValueStack),
      op_rot (c :: b :: a :: rest) = some (b :: a :: c :: rest)) ∧
    runSeq 2 progRot mEmpty = some ⟨[Value.int 2, Value.int 1, Value.int 3], []⟩ ∧
    dot [Value.int 2, Value.int 1, Value.int 3] = some ("2 ", [Value.int 1, Value.int 3]) := by
  refine ⟨fun c b a rest => rfl, ?_, rfl⟩
  simp [runSeq, runValue, execPrim, progRot, rotSym, mEmpty, mpush, vallocCopy, op_rot,
    ValueStack.push]

/-- C4: the primitives are not hardened against pop-null: `op_swap`
invoked with a single value on the primary stack dereferences the null
new stack head (`vstk->head->next`), modelled as the crash result
`none`, instead of acting as a no-op. -/
theorem op_swap_single_value_crash : op_swap [Value.int 1] = none := rfl

/-- C5: op_loop pops end, then begin, then the sequence, and runs one
pass per index of `loopIndices begin end` — ascending from begin up to
but excluding end when `begin < end`, else descending down to but
excluding end — so `begin = end` runs the sequence zero times, and the
program `[ 1 + ] 0 10 loop` leaves the ten values 1..10 on the stack. -/
theorem op_loop_spec (f : Nat) (block : List Value) (b e : Int) (rest stash : ValueStack) :
    (execPrim (Nat.succ f) Prim.loopP none ⟨.int e :: .int b :: .seq block :: rest, stash⟩ =
      runOver f block ⟨rest, stash⟩ (loopIndices b e)) ∧
    (b = e → execPrim (Nat.succ f) Prim.loopP none
        ⟨.int e :: .int b :: .seq block :: rest, stash⟩ = some ⟨rest, stash⟩) ∧
    runSeq 3 progLoop mEmpty = some ⟨[Value.int 10, Value.int 9, Value.int 8, Value.int 7,
      Value.int 6, Value.int 5, Value.int 4, Value.int 3, Value.int 2, Value.int 1], []⟩ := by
  have hmain : execPrim (Nat.succ f) Prim.loopP none
      ⟨.int e :: .int b :: .seq block :: rest, stash⟩ =
      runOver f block ⟨rest, stash⟩ (loopIndices b e) := by
    rw [execPrim]
    simp only [ValueStack.popint, ValueStack.popseq, Value.asint, Value.asseq, loopIndices]
    by_cases hbe : b < e
    · simp only [hbe, if_true]
      exact loopAsc_eq_runOver f block (e - b).toNat b e _ rfl
    · simp only [hbe, if_false]
      exact loopDesc_eq_runOver f block (b - e).toNat b e _ rfl
  refine ⟨hmain, ?_, ?_⟩
  · intro hbe
    subst hbe
    rw [hmain]
    simp [loopIndices, runOver]
  · simp [runSeq, runValue, execPrim, progLoop, loopSym, addSym, mEmpty, mpush, vallocCopy,
      ValueStack.push, ValueStack.popint, ValueStack.popseq, Value.asint, Value.asseq,
      loopAsc, binary, usefloat2, oper_add, oper_dbl_add, Value.isArray, Value.isInt]

/-- C5 witness: a loop with `begin = end = 2` runs its block zero times
and only consumes its three operands. -/
theorem op_loop_spec_witness :
    (2 : Int) = 2 ∧
    execPrim (Nat.succ 0) Prim.loopP none
        ⟨[Value.int 2, Value.int 2, Value.seq [], Value.int 9], []⟩ =
      some ⟨[Value.int 9], []⟩ :=
  ⟨rfl, (op_loop_spec 0 [] 2 2 [Value.int 9] []).2.1 rfl⟩

/-- C6: integer division and modulo return 0 on a zero divisor, and the
float forms return 0.0 on a zero divisor; all four operators are total
functions (no trap). -/
theorem divide_by_zero_yields_zero (a : Int) (q : ℚ) :
    oper_div a 0 = 0 ∧ oper_mod a 0 = 0 ∧ oper_dbl_div q 0 = 0 ∧ oper_dbl_mod q 0 = 0 := by
  refine ⟨?_, ?_, ?_, ?_⟩ <;> simp [oper_div, oper_mod, oper_dbl_div, oper_dbl_mod]

/-- C7: on the empty stack the raw `pop` yields null and leaves the
stack empty, while the typed pops yield the coercion zero of their
type: 0, 0.0, the empty string, and the null sequence. -/
theorem pop_empty_coercion_zeros :
    ValueStack.pop [] = (none, ([] : ValueStack)) ∧
    ValueStack.popint [] = (0, ([] : ValueStack)) ∧
    ValueStack.popfloat [] = (0, ([] : ValueStack)) ∧
    ValueStack.popstring [] = ("", ([] : ValueStack)) ∧
    ValueStack.popseq [] = (none, ([] : ValueStack)) :=
  ⟨rfl, rfl, rfl, rfl, rfl⟩

/-- C8: `FDict::def` prepends at the head and `findsym` scans head
first, so after two definitions of the same name the lookup resolves to
the second value — the newest definition wins, over any prior
dictionary state. -/
theorem define_newest_wins (d : FDict) (n : String) (v1 v2 : Value) :
    ((d.define n v1).define n v2).find n = some v2 := by
  cases v2 <;> simp [FDict.define, FDict.find, FDict.findsym, List.find?, seqCopy_self]

/-- C9: when the value beneath the popped sequence is not an `ARRAY`,
op_map consumes both operands, never runs the sequence, and pushes
nothing back — the primary stack shrinks by exactly two. -/
theorem op_map_nonarray_discards (f : Nat) (seqv v : Value) (rest stash : ValueStack)
    (h : v.isArray = false) :
    execPrim (Nat.succ f) Prim.mapP none ⟨seqv :: v :: rest, stash⟩ = some ⟨rest, stash⟩ := by
  rw [execPrim]
  simp only [ValueStack.popseq, ValueStack.pop]
  cases v <;> simp_all [Value.isArray]

/-- C9 witness: mapping over the integer 5 discards it and the block. -/
theorem op_map_nonarray_discards_witness :
    (Value.int 5).isArray = false ∧
    execPrim (Nat.succ 0) Prim.mapP none
        ⟨[Value.seq [], Value.int 5, Value.int 7], []⟩ = some ⟨[Value.int 7], []⟩ :=
  ⟨rfl, op_map_nonarray_discards 0 (Value.seq []) (Value.int 5) [Value.int 7] [] rfl⟩

/-- C10: on a non-empty primary stack, `>>>` followed by `<<<` restores
both the primary stack and the stash exactly. -/
theorem stash_unstash_id (v : Value) (rest stash : ValueStack) :
    (op_stash ⟨v :: rest, stash⟩).bind op_unstash = some ⟨v :: rest, stash⟩ := rfl
